import Mathlib

/-!
A shallow embedding of `lib/vm/src/table.rs` (the WebAssembly table memory
manager of the runtime): the `LinearTable` type with its `size`, `grow`,
`get`, `set` operations and the default `Table::copy` bulk-transfer method,
together with proofs of the specified properties.

Machine integers are modelled as `Nat` with explicit bounds: `u32`
saturation/overflow points in the source (`checked_add`) are modelled with
an explicit comparison against `U32_MAX`; `usize` is the 64-bit platform
size type. Fallible Rust code returns `Except`; a `todo!()` panic in the
source is modelled as a distinct `panicTodo` error outcome so that a panic
is never confused with a returned trap.
-/

namespace WasmerTable

/-- `u32::MAX`. -/
def U32_MAX : Nat := 4294967295

/-- `usize::MAX` on the 64-bit platforms the runtime supports. -/
def USIZE_MAX : Nat := 18446744073709551615

/-- `u32::checked_add`: `none` exactly when the sum overflows the `u32`
size type. -/
def u32CheckedAdd (a b : Nat) : Option Nat :=
  if a + b ≤ U32_MAX then some (a + b) else none

/-- `wasmer_types::Type` (value types a table description may carry). -/
inductive ValType where
  | i32
  | i64
  | f32
  | f64
  | v128
  | externRef
  | funcRef
deriving DecidableEq, Repr

/-- `wasmer_types::TableType`: element type, minimum and optional maximum
number of elements. -/
structure TableType where
  ty : ValType
  minimum : Nat
  maximum : Option Nat
deriving DecidableEq, Repr

/-- `TableStyle`: implementation styles for tables (single variant). -/
inductive TableStyle where
  | callerChecksSignature
deriving DecidableEq, Repr

/-- Modelled from the spec: a callable reference ("an opaque value
sufficient to invoke a function") is a pointer-sized value with a defined
null value; its definition (`func_data_registry::VMFuncRef`) is outside
the provided sources. The null reference is the null pointer. -/
structure VMFuncRef where
  ptr : Nat
deriving DecidableEq, Repr

/-- `VMFuncRef::null()`: the null callable reference. -/
def VMFuncRef.null : VMFuncRef := ⟨0⟩

/-- Modelled from the spec: an opaque host-data reference is a
pointer-sized value with a defined null value; its definition
(`extern_ref::VMExternRef`) is outside the provided sources. The null
reference is the null pointer. -/
structure VMExternRef where
  ptr : Nat
deriving DecidableEq, Repr

/-- The null opaque reference. -/
def VMExternRef.null : VMExternRef := ⟨0⟩

/-- `TrapCode`: the runtime fault taxonomy (the variants this component
uses; the full enum lives in `trap.rs` outside the provided sources). -/
inductive TrapCode where
  | tableAccessOutOfBounds
  | tableSetterOutOfBounds
deriving DecidableEq, Repr

/-- The outcome of a fallible table operation: a `Trap` raised through
`Trap::new_from_runtime`, or a `todo!()` panic in the source (a crash,
not a structured error). -/
inductive VMError where
  | trap (code : TrapCode)
  | panicTodo (msg : String)
deriving DecidableEq, Repr

/-- `TableReference`: the tagged, externally-visible reference a table
exchanges at its public boundary. -/
inductive TableReference where
  | externRef (r : VMExternRef)
  | funcRef (r : VMFuncRef)
deriving DecidableEq, Repr

/-- `union TableElement { extern_ref, func_ref }`: both arms are
pointer-sized values occupying the same storage, so the union is its raw
bits; reading either arm reinterprets those bits. -/
structure TableElement where
  bits : Nat
deriving DecidableEq, Repr

/-- `TableElement::default()`: the null callable reference's arm
(`func_ref: VMFuncRef::null()`). -/
def TableElement.default : TableElement := ⟨VMFuncRef.null.ptr⟩

/-- `impl From<TableReference> for TableElement`: store the reference's
arm, dropping the tag. -/
def TableReference.toElement : TableReference → TableElement
  | .externRef r => ⟨r.ptr⟩
  | .funcRef r => ⟨r.ptr⟩

/-- `VMTableDefinition`: the raw table layout {base pointer,
current element count} read directly by compiled code. The base address
is modelled as a `Nat`. -/
structure VMTableDefinition where
  base : Nat
  current_elements : Nat
deriving DecidableEq, Repr

/-- `VMTableDefinitionOwnership`: who owns the raw layout's memory. Both
modes hold the same field values; the model records only the mode tag. -/
inductive VMTableDefinitionOwnership where
  | vmOwned (loc : Nat)
  | hostOwned
deriving DecidableEq, Repr

/-- `LinearTable`: backing storage, optional maximum, description, style,
layout ownership, and the raw layout's current field values. `vecAddr` is
the storage's address (`vec.as_mut_ptr()`), modelled abstractly. -/
structure LinearTable where
  vec : List TableElement
  vecAddr : Nat
  maximum : Option Nat
  table : TableType
  style : TableStyle
  ownership : VMTableDefinitionOwnership
  td : VMTableDefinition
deriving DecidableEq, Repr

/-- Errors `LinearTable::new_inner` reports (the source formats each as a
descriptive string; the model keeps them as a closed enumeration carrying
the same data). -/
inductive NewTableError where
  /-- "tables of types other than funcref or externref ({ty})" -/
  | unsupportedElementType (ty : ValType)
  /-- "Table minimum ({min}) is larger than maximum ({max})!" -/
  | minimumLargerThanMaximum (min max : Nat)
  /-- "Table minimum is bigger than usize" -/
  | minimumBiggerThanUsize
deriving DecidableEq, Repr

/-- `LinearTable::new_inner`: validate the description, allocate
`minimum` default elements, and initialize the raw layout (at
`vm_table_location` when VM-owned, afresh when host-owned). `baseAddr`
models the address the allocation receives. -/
def LinearTable.new_inner (table : TableType) (style : TableStyle)
    (vm_table_location : Option Nat) (baseAddr : Nat) :
    Except NewTableError LinearTable :=
  match table.ty with
  | ValType.funcRef | ValType.externRef =>
    match table.maximum with
    | some max =>
      if max < table.minimum then
        .error (.minimumLargerThanMaximum table.minimum max)
      else if USIZE_MAX < table.minimum then
        .error .minimumBiggerThanUsize
      else
        .ok { vec := List.replicate table.minimum TableElement.default
              vecAddr := baseAddr
              maximum := table.maximum
              table := table
              style := style
              ownership := match vm_table_location with
                | some loc => .vmOwned loc
                | none => .hostOwned
              td := { base := baseAddr, current_elements := table.minimum } }
    | none =>
      if USIZE_MAX < table.minimum then
        .error .minimumBiggerThanUsize
      else
        .ok { vec := List.replicate table.minimum TableElement.default
              vecAddr := baseAddr
              maximum := table.maximum
              table := table
              style := style
              ownership := match vm_table_location with
                | some loc => .vmOwned loc
                | none => .hostOwned
              td := { base := baseAddr, current_elements := table.minimum } }
  | ty => .error (.unsupportedElementType ty)

/-- `LinearTable::new`: the host-owned constructor. -/
def LinearTable.new (table : TableType) (style : TableStyle)
    (baseAddr : Nat) : Except NewTableError LinearTable :=
  LinearTable.new_inner table style none baseAddr

/-- `LinearTable::from_definition`: the VM-owned constructor, writing the
layout at `vm_table_location`. -/
def LinearTable.from_definition (table : TableType) (style : TableStyle)
    (vm_table_location : Nat) (baseAddr : Nat) :
    Except NewTableError LinearTable :=
  LinearTable.new_inner table style (some vm_table_location) baseAddr

/-- `LinearTable::size`: read the element count from the raw layout. -/
def LinearTable.size (t : LinearTable) : Nat :=
  t.td.current_elements

/-- `Vec::resize(new_len, value)`: truncate or pad with `value`. -/
def vecResize (l : List TableElement) (new_len : Nat) (value : TableElement) :
    List TableElement :=
  if new_len ≤ l.length then l.take new_len
  else l ++ List.replicate (new_len - l.length) value

/-- `self.maximum.map_or(false, |max| new_len > max)`. -/
def exceedsMaximum (maximum : Option Nat) (new_len : Nat) : Bool :=
  match maximum with
  | some max => decide (max < new_len)
  | none => false

/-- `idx.checked_add(len).map_or(true, |n| n > size)`: the overflow-safe
out-of-bounds test of `Table::copy`. -/
def rangeOutOfBounds (idx len size : Nat) : Bool :=
  match u32CheckedAdd idx len with
  | none => true
  | some n => decide (size < n)

/-- `LinearTable::grow`: `None` when `size + delta` overflows `u32` or
exceeds the configured maximum; otherwise resize the storage, refresh the
raw layout (`current_elements`, then `base` — the storage may have moved
to `newAddr`), and return the pre-growth size. -/
def LinearTable.grow (t : LinearTable) (delta : Nat) (newAddr : Nat) :
    Option (Nat × LinearTable) :=
  let size := t.size
  match u32CheckedAdd size delta with
  | none => none
  | some new_len =>
    if exceedsMaximum t.maximum new_len then
      none
    else
      some (size,
        { t with
          vec := vecResize t.vec new_len TableElement.default
          vecAddr := newAddr
          td := { base := newAddr, current_elements := new_len } })

/-- `LinearTable::get`: clone the element at `index` out of the storage
(`TableAccessOutOfBounds` past the end), then reinterpret the union arm
selected by the table's element type; any other element type hits the
source's `todo!()`. -/
def LinearTable.get (t : LinearTable) (index : Nat) :
    Except VMError TableReference :=
  match t.vec[index]? with
  | none => .error (.trap .tableAccessOutOfBounds)
  | some raw_data =>
    match t.table.ty with
    | .externRef => .ok (.externRef ⟨raw_data.bits⟩)
    | .funcRef => .ok (.funcRef ⟨raw_data.bits⟩)
    | _ => .error (.panicTodo "getting invalid type from table, handle this error")

/-- `LinearTable::set`: write `reference` into slot `index`
(`TableAccessOutOfBounds` past the end). A reference whose tag does not
match the table's element type hits the source's
`todo!("Trap if we set the wrong type")` — a panic, not a trap. -/
def LinearTable.set (t : LinearTable) (index : Nat)
    (reference : TableReference) : Except VMError LinearTable :=
  if index < t.vec.length then
    match t.table.ty, reference with
    | .externRef, .externRef r =>
      .ok { t with vec := t.vec.set index (TableReference.externRef r).toElement }
    | .funcRef, .funcRef r =>
      .ok { t with vec := t.vec.set index (TableReference.funcRef r).toElement }
    | _, _ => .error (.panicTodo "Trap if we set the wrong type")
  else
    .error (.trap .tableAccessOutOfBounds)

/-- The forward loop of `Table::copy` when source and destination are the
same table: for each step, `src_table.get(s)` then `self.set(d, _)`,
with `s` and `d` advancing together. -/
def LinearTable.copySameFwd (t : LinearTable) (s d : Nat) :
    Nat → Except VMError LinearTable
  | 0 => .ok t
  | n + 1 =>
    match t.get s with
    | .error e => .error e
    | .ok r =>
      match t.set d r with
      | .error e => .error e
      | .ok t' => t'.copySameFwd (s + 1) (d + 1) n

/-- The backward loop of `Table::copy` when source and destination are the
same table: pairs `(s+len-1, d+len-1)` down to `(s, d)`. -/
def LinearTable.copySameBwd (t : LinearTable) (s d : Nat) :
    Nat → Except VMError LinearTable
  | 0 => .ok t
  | n + 1 =>
    match t.get (s + n) with
    | .error e => .error e
    | .ok r =>
      match t.set (d + n) r with
      | .error e => .error e
      | .ok t' => t'.copySameBwd s d n

/-- `Table::copy` specialised to `src_table == self` (same-table bulk
transfer): the two overflow-safe bounds checks, then a front-to-back move
when `dst_index <= src_index` and a back-to-front move otherwise. -/
def LinearTable.copyWithin (t : LinearTable)
    (dst_index src_index len : Nat) : Except VMError LinearTable :=
  if rangeOutOfBounds src_index len t.size then
    .error (.trap .tableAccessOutOfBounds)
  else if rangeOutOfBounds dst_index len t.size then
    .error (.trap .tableSetterOutOfBounds)
  else if dst_index ≤ src_index then
    t.copySameFwd src_index dst_index len
  else
    t.copySameBwd src_index dst_index len

/-- The forward loop of `Table::copy` for distinct tables: the source is
never mutated, so each step reads `src` and writes `t`. -/
def LinearTable.copyFromFwd (t src : LinearTable) (s d : Nat) :
    Nat → Except VMError LinearTable
  | 0 => .ok t
  | n + 1 =>
    match src.get s with
    | .error e => .error e
    | .ok r =>
      match t.set d r with
      | .error e => .error e
      | .ok t' => t'.copyFromFwd src (s + 1) (d + 1) n

/-- The backward loop of `Table::copy` for distinct tables. -/
def LinearTable.copyFromBwd (t src : LinearTable) (s d : Nat) :
    Nat → Except VMError LinearTable
  | 0 => .ok t
  | n + 1 =>
    match src.get (s + n) with
    | .error e => .error e
    | .ok r =>
      match t.set (d + n) r with
      | .error e => .error e
      | .ok t' => t'.copyFromBwd src s d n

/-- `Table::copy` for distinct tables: bounds-check the source range
against `src_table.size()` and the destination range against
`self.size()` (both with `checked_add`), then move element by element. -/
def LinearTable.copyFrom (t src : LinearTable)
    (dst_index src_index len : Nat) : Except VMError LinearTable :=
  if rangeOutOfBounds src_index len src.size then
    .error (.trap .tableAccessOutOfBounds)
  else if rangeOutOfBounds dst_index len t.size then
    .error (.trap .tableSetterOutOfBounds)
  else if dst_index ≤ src_index then
    t.copyFromFwd src src_index dst_index len
  else
    t.copyFromBwd src src_index dst_index len

/-- `LinearTable::vmtable` / `get_vm_table_definition`: the raw layout's
current field values (the address resolution of the two ownership modes
is not observable in the model). -/
def LinearTable.vmtable (t : LinearTable) : VMTableDefinition :=
  t.td

/-- The element kind's null reference: the null value of whichever union
arm the table's `TableKind` selects. -/
def kindNull (ty : ValType) : TableReference :=
  match ty with
  | .externRef => .externRef VMExternRef.null
  | _ => .funcRef VMFuncRef.null

/-- A reference's tag matches a table element type. -/
def tagMatches (ty : ValType) : TableReference → Bool
  | .externRef _ => ty = ValType.externRef
  | .funcRef _ => ty = ValType.funcRef

/-- The element type stored in a table built by the public constructors:
one of the two supported reference kinds. -/
def tyValid (ty : ValType) : Prop :=
  ty = ValType.funcRef ∨ ty = ValType.externRef

instance (ty : ValType) : Decidable (tyValid ty) := by
  unfold tyValid; infer_instance

/-- The layout invariant: the raw layout's `current_elements` equals the
backing storage's length and its `base` equals the storage's address. -/
def LayoutInv (t : LinearTable) : Prop :=
  t.td.current_elements = t.vec.length ∧ t.td.base = t.vecAddr

instance (t : LinearTable) : Decidable (LayoutInv t) := by
  unfold LayoutInv; infer_instance

/-- Well-formedness every constructor-built table enjoys: the layout
invariant plus a supported element type. -/
def WellFormed (t : LinearTable) : Prop :=
  LayoutInv t ∧ tyValid t.table.ty

instance (t : LinearTable) : Decidable (WellFormed t) := by
  unfold WellFormed; infer_instance

/-- Reading a stored element through a supported element type's union arm
(the conversion `get` performs). -/
def readElem (ty : ValType) (e : TableElement) : TableReference :=
  match ty with
  | .externRef => .externRef ⟨e.bits⟩
  | _ => .funcRef ⟨e.bits⟩

/-- All fields of a table other than the backing storage agree (what the
element loops of `copy` leave untouched). -/
def MetaEq (t t' : LinearTable) : Prop :=
  t'.vecAddr = t.vecAddr ∧ t'.maximum = t.maximum ∧ t'.table = t.table ∧
    t'.style = t.style ∧ t'.ownership = t.ownership ∧ t'.td = t.td

/-- `set(index, r)` followed by `get(index)` on the resulting table. -/
def setThenGet (t : LinearTable) (index : Nat) (r : TableReference) :
    Except VMError TableReference :=
  match t.set index r with
  | .error e => .error e
  | .ok t' => t'.get index

/-- The table `LinearTable::new` builds from the description
{funcref, minimum 2, maximum 4} at address 100 (the concrete scenario of
the specification). -/
def sampleTable : LinearTable :=
  { vec := [⟨0⟩, ⟨0⟩]
    vecAddr := 100
    maximum := some 4
    table := ⟨.funcRef, 2, some 4⟩
    style := .callerChecksSignature
    ownership := .hostOwned
    td := ⟨100, 2⟩ }

/-- A funcref table of size 6 with distinct markers at indices 0..5 (the
specification's overlap-copy scenario). -/
def sampleTable6 : LinearTable :=
  { vec := [⟨10⟩, ⟨11⟩, ⟨12⟩, ⟨13⟩, ⟨14⟩, ⟨15⟩]
    vecAddr := 0
    maximum := none
    table := ⟨.funcRef, 6, none⟩
    style := .callerChecksSignature
    ownership := .hostOwned
    td := ⟨0, 6⟩ }

/-- The table `sampleTable` becomes after a successful `grow(1)` moving
the storage to address 200. -/
def sampleGrown : LinearTable :=
  { vec := [⟨0⟩, ⟨0⟩, ⟨0⟩]
    vecAddr := 200
    maximum := some 4
    table := ⟨.funcRef, 2, some 4⟩
    style := .callerChecksSignature
    ownership := .hostOwned
    td := ⟨200, 3⟩ }

instance exceptDecEq {ε α : Type} [DecidableEq ε] [DecidableEq α] :
    DecidableEq (Except ε α) := fun x y =>
  match x, y with
  | .error e, .error f =>
    if h : e = f then isTrue (by rw [h])
    else isFalse (by intro hc; cases hc; exact h rfl)
  | .error _, .ok _ => isFalse (fun hc => Except.noConfusion hc)
  | .ok _, .error _ => isFalse (fun hc => Except.noConfusion hc)
  | .ok a, .ok b =>
    if h : a = b then isTrue (by rw [h])
    else isFalse (by intro hc; cases hc; exact h rfl)

/-! ## Basic lemmas about `set` and `get` -/

theorem set_eq_ok (t : LinearTable) (i : Nat) (r : TableReference)
    (hi : i < t.vec.length) (hm : tagMatches t.table.ty r = true) :
    t.set i r = .ok { t with vec := t.vec.set i r.toElement } := by
  cases r with
  | externRef e =>
    simp only [tagMatches, decide_eq_true_eq] at hm
    simp [LinearTable.set, hi, hm]
  | funcRef f =>
    simp only [tagMatches, decide_eq_true_eq] at hm
    simp [LinearTable.set, hi, hm]

theorem set_ok_elim {t t' : LinearTable} {i : Nat} {r : TableReference}
    (h : t.set i r = .ok t') :
    i < t.vec.length ∧ t' = { t with vec := t.vec.set i r.toElement } := by
  unfold LinearTable.set at h
  split at h
  case isTrue hi =>
    refine ⟨hi, ?_⟩
    split at h <;> first
      | (cases h; rfl)
      | exact absurd h (by simp)
  case isFalse hi => exact absurd h (by simp)

theorem get_eq_readElem {t : LinearTable} {i : Nat} {e : TableElement}
    (hv : tyValid t.table.ty) (he : t.vec[i]? = some e) :
    t.get i = .ok (readElem t.table.ty e) := by
  unfold LinearTable.get
  rw [he]
  rcases hv with h | h <;> rw [h] <;> rfl

theorem get_oob {t : LinearTable} {i : Nat} (h : t.vec[i]? = none) :
    t.get i = .error (.trap .tableAccessOutOfBounds) := by
  unfold LinearTable.get
  rw [h]

theorem readElem_toElement {ty : ValType} (hv : tyValid ty)
    (e : TableElement) : (readElem ty e).toElement = e := by
  rcases hv with h | h <;> subst h <;> rfl

theorem tagMatches_readElem {ty : ValType} (hv : tyValid ty)
    (e : TableElement) : tagMatches ty (readElem ty e) = true := by
  rcases hv with h | h <;> subst h <;> rfl

theorem readElem_toElement_of_match {ty : ValType} {r : TableReference}
    (hm : tagMatches ty r = true) : readElem ty r.toElement = r := by
  cases r <;> simp only [tagMatches, decide_eq_true_eq] at hm <;>
    subst hm <;> rfl

/-! ## The copy loops perform an overlap-safe block move -/

theorem copySameFwd_spec (n : Nat) :
    ∀ (t : LinearTable) (s d : Nat),
      tyValid t.table.ty → d ≤ s → s + n ≤ t.vec.length →
      ∃ t', t.copySameFwd s d n = .ok t' ∧ MetaEq t t' ∧
        t'.vec.length = t.vec.length ∧
        (∀ i, i < n → t'.vec[d + i]? = t.vec[s + i]?) ∧
        (∀ j, j < d ∨ d + n ≤ j → t'.vec[j]? = t.vec[j]?) := by
  induction n with
  | zero =>
    intro t s d _ _ _
    exact ⟨t, rfl, ⟨rfl, rfl, rfl, rfl, rfl, rfl⟩, rfl,
      fun i hi => absurd hi (Nat.not_lt_zero i), fun j _ => rfl⟩
  | succ n ih =>
    intro t s d hv hds hlen
    have hs : s < t.vec.length := by omega
    have hd : d < t.vec.length := by omega
    have hget : t.get s = .ok (readElem t.table.ty (t.vec.get ⟨s, hs⟩)) :=
      get_eq_readElem hv (by simp [List.getElem?_eq_getElem hs])
    have hset := set_eq_ok t d (readElem t.table.ty (t.vec.get ⟨s, hs⟩)) hd
      (tagMatches_readElem hv _)
    rw [readElem_toElement hv] at hset
    set e : TableElement := t.vec.get ⟨s, hs⟩ with hedef
    set t₁ : LinearTable := { t with vec := t.vec.set d e } with ht₁
    have hlen₁ : t₁.vec.length = t.vec.length := by
      simp [ht₁, List.length_set]
    obtain ⟨t', hrun, hmeta, hlen', hcopy, huntouched⟩ :=
      ih t₁ (s + 1) (d + 1) (by simp [ht₁]; exact hv) (by omega)
        (by rw [hlen₁]; omega)
    refine ⟨t', ?_, ?_, ?_, ?_, ?_⟩
    · rw [LinearTable.copySameFwd]
      simp only [hget, hset]
      exact hrun
    · obtain ⟨m1, m2, m3, m4, m5, m6⟩ := hmeta
      exact ⟨m1, m2, m3, m4, m5, m6⟩
    · rw [hlen', hlen₁]
    · intro i hi
      cases i with
      | zero =>
        have h0 : t'.vec[d]? = t₁.vec[d]? := huntouched d (Or.inl (by omega))
        have h1 : t₁.vec[d]? = some e := by
          simp only [ht₁]
          exact List.getElem?_set_self hd
        have h2 : t.vec[s]? = some e := by
          rw [hedef]
          simp [List.getElem?_eq_getElem hs]
        simpa [h1, h2] using h0
      | succ k =>
        have hik : k < n := by omega
        have h0 : d + (k + 1) = (d + 1) + k := by omega
        have h1 : s + (k + 1) = (s + 1) + k := by omega
        rw [h0, h1, hcopy k hik]
        simp only [ht₁]
        exact List.getElem?_set_ne (by omega)
    · intro j hj
      have h0 : t'.vec[j]? = t₁.vec[j]? := by
        apply huntouched
        omega
      rw [h0]
      simp only [ht₁]
      exact List.getElem?_set_ne (by omega)

theorem copySameBwd_spec (n : Nat) :
    ∀ (t : LinearTable) (s d : Nat),
      tyValid t.table.ty → s ≤ d → s + n ≤ t.vec.length →
      d + n ≤ t.vec.length →
      ∃ t', t.copySameBwd s d n = .ok t' ∧ MetaEq t t' ∧
        t'.vec.length = t.vec.length ∧
        (∀ i, i < n → t'.vec[d + i]? = t.vec[s + i]?) ∧
        (∀ j, j < d ∨ d + n ≤ j → t'.vec[j]? = t.vec[j]?) := by
  induction n with
  | zero =>
    intro t s d _ _ _ _
    exact ⟨t, rfl, ⟨rfl, rfl, rfl, rfl, rfl, rfl⟩, rfl,
      fun i hi => absurd hi (Nat.not_lt_zero i), fun j _ => rfl⟩
  | succ n ih =>
    intro t s d hv hsd hslen hdlen
    have hs : s + n < t.vec.length := by omega
    have hd : d + n < t.vec.length := by omega
    have hget : t.get (s + n) =
        .ok (readElem t.table.ty (t.vec.get ⟨s + n, hs⟩)) :=
      get_eq_readElem hv (by simp [List.getElem?_eq_getElem hs])
    have hset := set_eq_ok t (d + n)
      (readElem t.table.ty (t.vec.get ⟨s + n, hs⟩)) hd
      (tagMatches_readElem hv _)
    rw [readElem_toElement hv] at hset
    set e : TableElement := t.vec.get ⟨s + n, hs⟩ with hedef
    set t₁ : LinearTable := { t with vec := t.vec.set (d + n) e } with ht₁
    have hlen₁ : t₁.vec.length = t.vec.length := by
      simp [ht₁, List.length_set]
    obtain ⟨t', hrun, hmeta, hlen', hcopy, huntouched⟩ :=
      ih t₁ s d (by simp [ht₁]; exact hv) hsd
        (by rw [hlen₁]; omega) (by rw [hlen₁]; omega)
    refine ⟨t', ?_, ?_, ?_, ?_, ?_⟩
    · rw [LinearTable.copySameBwd]
      simp only [hget, hset]
      exact hrun
    · obtain ⟨m1, m2, m3, m4, m5, m6⟩ := hmeta
      exact ⟨m1, m2, m3, m4, m5, m6⟩
    · rw [hlen', hlen₁]
    · intro i hi
      rcases Nat.lt_or_ge i n with hik | hik
      · rw [hcopy i hik]
        simp only [ht₁]
        exact List.getElem?_set_ne (by omega)
      · have hin : i = n := by omega
        subst hin
        have h0 : t'.vec[d + i]? = t₁.vec[d + i]? :=
          huntouched (d + i) (Or.inr (by omega))
        have h1 : t₁.vec[d + i]? = some e := by
          simp only [ht₁]
          exact List.getElem?_set_self hd
        have h2 : t.vec[s + i]? = some e := by
          rw [hedef]
          simp [List.getElem?_eq_getElem hs]
        simp [h0, h1, h2]
    · intro j hj
      have h0 : t'.vec[j]? = t₁.vec[j]? := by
        apply huntouched
        omega
      rw [h0]
      simp only [ht₁]
      exact List.getElem?_set_ne (by omega)

/-! ## Preservation of the non-storage fields by the copy loops -/

theorem copySameFwd_meta (n : Nat) :
    ∀ (t : LinearTable) (s d : Nat) (t' : LinearTable),
      t.copySameFwd s d n = .ok t' →
      t'.vec.length = t.vec.length ∧ MetaEq t t' := by
  induction n with
  | zero =>
    intro t s d t' h
    simp only [LinearTable.copySameFwd] at h
    cases h
    exact ⟨rfl, rfl, rfl, rfl, rfl, rfl, rfl⟩
  | succ n ih =>
    intro t s d t' h
    rw [LinearTable.copySameFwd] at h
    cases hg : t.get s with
    | error e => simp only [hg] at h; exact Except.noConfusion h
    | ok r =>
      simp only [hg] at h
      cases hs : t.set d r with
      | error e => simp only [hs] at h; exact Except.noConfusion h
      | ok t₁ =>
        simp only [hs] at h
        obtain ⟨hlen, m1, m2, m3, m4, m5, m6⟩ := ih t₁ (s + 1) (d + 1) t' h
        obtain ⟨_, ht₁⟩ := set_ok_elim hs
        subst ht₁
        rw [List.length_set] at hlen
        exact ⟨hlen, m1, m2, m3, m4, m5, m6⟩

theorem copySameBwd_meta (n : Nat) :
    ∀ (t : LinearTable) (s d : Nat) (t' : LinearTable),
      t.copySameBwd s d n = .ok t' →
      t'.vec.length = t.vec.length ∧ MetaEq t t' := by
  induction n with
  | zero =>
    intro t s d t' h
    simp only [LinearTable.copySameBwd] at h
    cases h
    exact ⟨rfl, rfl, rfl, rfl, rfl, rfl, rfl⟩
  | succ n ih =>
    intro t s d t' h
    rw [LinearTable.copySameBwd] at h
    cases hg : t.get (s + n) with
    | error e => simp only [hg] at h; exact Except.noConfusion h
    | ok r =>
      simp only [hg] at h
      cases hs : t.set (d + n) r with
      | error e => simp only [hs] at h; exact Except.noConfusion h
      | ok t₁ =>
        simp only [hs] at h
        obtain ⟨hlen, m1, m2, m3, m4, m5, m6⟩ := ih t₁ s d t' h
        obtain ⟨_, ht₁⟩ := set_ok_elim hs
        subst ht₁
        rw [List.length_set] at hlen
        exact ⟨hlen, m1, m2, m3, m4, m5, m6⟩

theorem copyFromFwd_meta (n : Nat) :
    ∀ (t src : LinearTable) (s d : Nat) (t' : LinearTable),
      t.copyFromFwd src s d n = .ok t' →
      t'.vec.length = t.vec.length ∧ MetaEq t t' := by
  induction n with
  | zero =>
    intro t src s d t' h
    simp only [LinearTable.copyFromFwd] at h
    cases h
    exact ⟨rfl, rfl, rfl, rfl, rfl, rfl, rfl⟩
  | succ n ih =>
    intro t src s d t' h
    rw [LinearTable.copyFromFwd] at h
    cases hg : src.get s with
    | error e => simp only [hg] at h; exact Except.noConfusion h
    | ok r =>
      simp only [hg] at h
      cases hs : t.set d r with
      | error e => simp only [hs] at h; exact Except.noConfusion h
      | ok t₁ =>
        simp only [hs] at h
        obtain ⟨hlen, m1, m2, m3, m4, m5, m6⟩ := ih t₁ src (s + 1) (d + 1) t' h
        obtain ⟨_, ht₁⟩ := set_ok_elim hs
        subst ht₁
        rw [List.length_set] at hlen
        exact ⟨hlen, m1, m2, m3, m4, m5, m6⟩

theorem copyFromBwd_meta (n : Nat) :
    ∀ (t src : LinearTable) (s d : Nat) (t' : LinearTable),
      t.copyFromBwd src s d n = .ok t' →
      t'.vec.length = t.vec.length ∧ MetaEq t t' := by
  induction n with
  | zero =>
    intro t src s d t' h
    simp only [LinearTable.copyFromBwd] at h
    cases h
    exact ⟨rfl, rfl, rfl, rfl, rfl, rfl, rfl⟩
  | succ n ih =>
    intro t src s d t' h
    rw [LinearTable.copyFromBwd] at h
    cases hg : src.get (s + n) with
    | error e => simp only [hg] at h; exact Except.noConfusion h
    | ok r =>
      simp only [hg] at h
      cases hs : t.set (d + n) r with
      | error e => simp only [hs] at h; exact Except.noConfusion h
      | ok t₁ =>
        simp only [hs] at h
        obtain ⟨hlen, m1, m2, m3, m4, m5, m6⟩ := ih t₁ src s d t' h
        obtain ⟨_, ht₁⟩ := set_ok_elim hs
        subst ht₁
        rw [List.length_set] at hlen
        exact ⟨hlen, m1, m2, m3, m4, m5, m6⟩

theorem copyWithin_meta {t t' : LinearTable} {d s n : Nat}
    (h : t.copyWithin d s n = .ok t') :
    t'.vec.length = t.vec.length ∧ MetaEq t t' := by
  unfold LinearTable.copyWithin at h
  split at h
  · exact absurd h (by simp)
  · split at h
    · exact absurd h (by simp)
    · split at h
      · exact copySameFwd_meta n t s d t' h
      · exact copySameBwd_meta n t s d t' h

theorem copyFrom_meta {t src t' : LinearTable} {d s n : Nat}
    (h : t.copyFrom src d s n = .ok t') :
    t'.vec.length = t.vec.length ∧ MetaEq t t' := by
  unfold LinearTable.copyFrom at h
  split at h
  · exact absurd h (by simp)
  · split at h
    · exact absurd h (by simp)
    · split at h
      · exact copyFromFwd_meta n t src s d t' h
      · exact copyFromBwd_meta n t src s d t' h

/-! ## Characterizations of the bounds checks, `vecResize`, `new_inner`
and `grow` -/

theorem rangeOutOfBounds_true_iff (idx len size : Nat) :
    rangeOutOfBounds idx len size = true ↔
      U32_MAX < idx + len ∨ size < idx + len := by
  rcases le_or_lt (idx + len) U32_MAX with hle | hlt
  · have hca : u32CheckedAdd idx len = some (idx + len) := by
      unfold u32CheckedAdd; simp [hle]
    unfold rangeOutOfBounds
    rw [hca]
    simp
    omega
  · have hca : u32CheckedAdd idx len = none := by
      unfold u32CheckedAdd; simp; omega
    unfold rangeOutOfBounds
    rw [hca]
    simp
    omega

theorem vecResize_length (l : List TableElement) (n : Nat)
    (v : TableElement) : (vecResize l n v).length = n := by
  unfold vecResize
  split
  case isTrue h => simp [List.length_take]; omega
  case isFalse h => simp [List.length_append, List.length_replicate]; omega

theorem vecResize_get_lt {l : List TableElement} {n i : Nat}
    (v : TableElement) (hi : i < l.length) (hn : i < n) :
    (vecResize l n v)[i]? = l[i]? := by
  unfold vecResize
  split
  case isTrue h => exact List.getElem?_take_of_lt hn
  case isFalse h => exact List.getElem?_append_left hi

theorem vecResize_get_pad {l : List TableElement} {n i : Nat}
    (v : TableElement) (hi : l.length ≤ i) (hn : i < n) :
    (vecResize l n v)[i]? = some v := by
  unfold vecResize
  split
  case isTrue h => omega
  case isFalse h =>
    rw [List.getElem?_append_right hi]
    exact List.getElem?_replicate_of_lt (by omega)

theorem readElem_default {ty : ValType} (hv : tyValid ty) :
    readElem ty TableElement.default = kindNull ty := by
  rcases hv with h | h <;> subst h <;> rfl

theorem new_inner_ok_elim {table : TableType} {style : TableStyle}
    {vloc : Option Nat} {addr : Nat} {t : LinearTable}
    (h : LinearTable.new_inner table style vloc addr = .ok t) :
    tyValid table.ty ∧
    t.vec = List.replicate table.minimum TableElement.default ∧
    t.vecAddr = addr ∧ t.maximum = table.maximum ∧ t.table = table ∧
    t.style = style ∧
    t.td = { base := addr, current_elements := table.minimum } := by
  unfold LinearTable.new_inner at h
  split at h
  case h_1 hty =>
    refine ⟨Or.inl hty, ?_⟩
    split at h
    · split at h
      · exact Except.noConfusion h
      · split at h
        · exact Except.noConfusion h
        · cases h; exact ⟨rfl, rfl, rfl, rfl, rfl, rfl⟩
    · split at h
      · exact Except.noConfusion h
      · cases h; exact ⟨rfl, rfl, rfl, rfl, rfl, rfl⟩
  case h_2 hty =>
    refine ⟨Or.inr hty, ?_⟩
    split at h
    · split at h
      · exact Except.noConfusion h
      · split at h
        · exact Except.noConfusion h
        · cases h; exact ⟨rfl, rfl, rfl, rfl, rfl, rfl⟩
    · split at h
      · exact Except.noConfusion h
      · cases h; exact ⟨rfl, rfl, rfl, rfl, rfl, rfl⟩
  case h_3 =>
    exact Except.noConfusion h

theorem new_inner_error_iff (table : TableType) (style : TableStyle)
    (vloc : Option Nat) (addr : Nat) :
    (∃ e, LinearTable.new_inner table style vloc addr = .error e) ↔
      (¬ tyValid table.ty ∨
        (∃ max, table.maximum = some max ∧ max < table.minimum) ∨
        USIZE_MAX < table.minimum) := by
  cases hty : table.ty <;> cases hm : table.maximum <;>
    simp only [LinearTable.new_inner, hty, hm] <;>
    (try split_ifs) <;>
    simp_all [tyValid]

theorem grow_some_elim {t : LinearTable} {delta addr prev : Nat}
    {t' : LinearTable} (h : t.grow delta addr = some (prev, t')) :
    prev = t.size ∧ t.size + delta ≤ U32_MAX ∧
    exceedsMaximum t.maximum (t.size + delta) = false ∧
    t' = { t with
           vec := vecResize t.vec (t.size + delta) TableElement.default
           vecAddr := addr
           td := { base := addr, current_elements := t.size + delta } } := by
  rcases le_or_lt (t.size + delta) U32_MAX with hle | hlt
  · have hca : u32CheckedAdd t.size delta = some (t.size + delta) := by
      unfold u32CheckedAdd; simp [hle]
    simp only [LinearTable.grow, hca] at h
    split at h
    case isTrue hmax => exact Option.noConfusion h
    case isFalse hmax =>
      simp only [Option.some.injEq, Prod.mk.injEq] at h
      exact ⟨h.1.symm, hle, by simpa using hmax, h.2.symm⟩
  · have hca : u32CheckedAdd t.size delta = none := by
      unfold u32CheckedAdd; simp; omega
    simp only [LinearTable.grow, hca] at h
    exact Option.noConfusion h

/-! ## Claim theorems -/

/-- C1 (amended): for every table satisfying the layout invariant and
every `index >= size()`, `get(index)` fails with the out-of-bounds trap
`TableAccessOutOfBounds`, and `set(index, r)` also fails out of bounds —
but with the same trap code `TableAccessOutOfBounds`, not
`TableSetterOutOfBounds`; neither operation returns a table, so the
storage is unchanged. -/
theorem get_set_out_of_bounds :
    ∀ (t : LinearTable) (index : Nat) (r : TableReference),
      LayoutInv t → t.size ≤ index →
      t.get index = .error (.trap .tableAccessOutOfBounds) ∧
      t.set index r = .error (.trap .tableAccessOutOfBounds) := by
  intro t index r hinv hge
  have hlen : t.vec.length ≤ index := by
    have h1 := hinv.1
    unfold LinearTable.size at hge
    omega
  constructor
  · exact get_oob (List.getElem?_eq_none hlen)
  · unfold LinearTable.set
    rw [if_neg (by omega)]

/-- Witness for the amended C1 at the specification's concrete scenario:
the table {funcref, minimum 2, maximum 4} rejects `get(2)` and
`set(2, _)` with `TableAccessOutOfBounds`. -/
theorem get_set_out_of_bounds_witness :
    sampleTable.get 2 = .error (.trap .tableAccessOutOfBounds) ∧
    sampleTable.set 2 (.funcRef ⟨5⟩) =
      .error (.trap .tableAccessOutOfBounds) :=
  get_set_out_of_bounds sampleTable 2 (.funcRef ⟨5⟩) (by decide) (by decide)

/-- Counterexample to C1 as stated: on the freshly constructed table
{funcref, minimum 2, maximum 4}, a `set` past the current size fails with
`TableAccessOutOfBounds`, not with the claimed `TableSetterOutOfBounds`
(which `set` never signals; only `copy`'s destination check does). -/
theorem set_oob_trap_code_counterexample :
    LinearTable.new ⟨.funcRef, 2, some 4⟩ .callerChecksSignature 100 =
      .ok sampleTable ∧
    sampleTable.size ≤ 3 ∧
    sampleTable.set 3 (.funcRef ⟨5⟩) ≠
      .error (.trap .tableSetterOutOfBounds) ∧
    sampleTable.set 3 (.funcRef ⟨5⟩) =
      .error (.trap .tableAccessOutOfBounds) := by
  decide

/-- C2: `copy` (same-table and distinct-table form) fails with the
source out-of-bounds trap whenever `src_index + len` exceeds the source
size or overflows `u32`, and — once the source range is in bounds — with
the destination out-of-bounds trap whenever `dst_index + len` exceeds the
destination size or overflows `u32`; the error is returned before any
element is moved, and an overflowing sum always fails the check. -/
theorem copy_bounds_checked :
    ∀ (t src : LinearTable) (dst_index src_index len : Nat),
      ((U32_MAX < src_index + len ∨ t.size < src_index + len) →
        t.copyWithin dst_index src_index len =
          .error (.trap .tableAccessOutOfBounds)) ∧
      (src_index + len ≤ U32_MAX → src_index + len ≤ t.size →
        (U32_MAX < dst_index + len ∨ t.size < dst_index + len) →
        t.copyWithin dst_index src_index len =
          .error (.trap .tableSetterOutOfBounds)) ∧
      ((U32_MAX < src_index + len ∨ src.size < src_index + len) →
        t.copyFrom src dst_index src_index len =
          .error (.trap .tableAccessOutOfBounds)) ∧
      (src_index + len ≤ U32_MAX → src_index + len ≤ src.size →
        (U32_MAX < dst_index + len ∨ t.size < dst_index + len) →
        t.copyFrom src dst_index src_index len =
          .error (.trap .tableSetterOutOfBounds)) := by
  intro t src d s n
  refine ⟨?_, ?_, ?_, ?_⟩
  · intro hc
    unfold LinearTable.copyWithin
    rw [if_pos ((rangeOutOfBounds_true_iff s n t.size).mpr hc)]
  · intro h1 h2 hc
    unfold LinearTable.copyWithin
    rw [if_neg (by simp only [rangeOutOfBounds_true_iff]; omega),
      if_pos ((rangeOutOfBounds_true_iff d n t.size).mpr hc)]
  · intro hc
    unfold LinearTable.copyFrom
    rw [if_pos ((rangeOutOfBounds_true_iff s n src.size).mpr hc)]
  · intro h1 h2 hc
    unfold LinearTable.copyFrom
    rw [if_neg (by simp only [rangeOutOfBounds_true_iff]; omega),
      if_pos ((rangeOutOfBounds_true_iff d n t.size).mpr hc)]

/-- Witness for C2 on the 6-element marker table: a source range past the
end traps with the access code; an in-bounds source range with an
out-of-bounds destination traps with the setter code. -/
theorem copy_bounds_checked_witness :
    sampleTable6.copyWithin 0 3 4 =
      .error (.trap .tableAccessOutOfBounds) ∧
    sampleTable6.copyWithin 3 0 4 =
      .error (.trap .tableSetterOutOfBounds) :=
  ⟨(copy_bounds_checked sampleTable6 sampleTable6 0 3 4).1 (by decide),
   (copy_bounds_checked sampleTable6 sampleTable6 3 0 4).2.1
     (by decide) (by decide) (by decide)⟩

/-- C6 (code bug): on a funcref table, an in-bounds `set` with an
externref reference does not return a type-mismatch trap — it hits the
source's `todo!("Trap if we set the wrong type")`, i.e. it panics. -/
theorem set_kind_mismatch_panics :
    sampleTable.table.ty = ValType.funcRef ∧
    0 < sampleTable.size ∧
    sampleTable.set 0 (.externRef ⟨7⟩) =
      .error (.panicTodo "Trap if we set the wrong type") := by
  refine ⟨rfl, by decide, rfl⟩

/-- Counterexample to C7 as stated: with a reference whose tag does not
match the table's kind, `set` does not complete (it panics in the
source), so `set(0, r)` followed by `get(0)` does not return `r`. -/
theorem set_get_roundtrip_counterexample :
    0 < sampleTable.size ∧
    setThenGet sampleTable 0 (.externRef ⟨7⟩) ≠
      .ok (.externRef ⟨7⟩) := by
  decide

/-- C7 (amended): for every well-formed table, every index < size(), and
every reference `r` whose tag matches the table's element kind,
`set(index, r)` followed by `get(index)` returns a reference equal to
`r`. -/
theorem set_get_roundtrip :
    ∀ (t : LinearTable) (index : Nat) (r : TableReference),
      WellFormed t → index < t.size → tagMatches t.table.ty r = true →
      setThenGet t index r = .ok r := by
  intro t i r hwf hi hm
  obtain ⟨⟨hlen, _⟩, hty⟩ := hwf
  have hil : i < t.vec.length := by
    unfold LinearTable.size at hi
    omega
  unfold setThenGet
  simp only [set_eq_ok t i r hil hm]
  have hget : ({ t with vec := t.vec.set i r.toElement } : LinearTable).get i =
      .ok (readElem t.table.ty r.toElement) :=
    get_eq_readElem hty (List.getElem?_set_self hil)
  rw [hget, readElem_toElement_of_match hm]

/-- Witness for the amended C7: storing funcref 9 at index 1 of the
sample table and reading it back returns funcref 9. -/
theorem set_get_roundtrip_witness :
    setThenGet sampleTable 1 (.funcRef ⟨9⟩) = .ok (.funcRef ⟨9⟩) :=
  set_get_roundtrip sampleTable 1 (.funcRef ⟨9⟩)
    (by decide) (by decide) (by decide)

/-- C3: when both bounds checks pass on a well-formed table, the
same-table `copy` is an overlap-safe block move (front-to-back when
`dst_index <= src_index`, back-to-front otherwise): afterwards the
destination slots `[dst_index, dst_index+len)` hold the pre-copy values
of the source slots `[src_index, src_index+len)` and every other slot is
untouched. -/
theorem copy_overlap_block_move :
    ∀ (t : LinearTable) (dst_index src_index len : Nat),
      WellFormed t → t.size ≤ U32_MAX →
      src_index + len ≤ t.size → dst_index + len ≤ t.size →
      ∃ t', t.copyWithin dst_index src_index len = .ok t' ∧
        t'.size = t.size ∧
        (∀ i, i < len →
          t'.vec[dst_index + i]? = t.vec[src_index + i]?) ∧
        (∀ j, j < dst_index ∨ dst_index + len ≤ j →
          t'.vec[j]? = t.vec[j]?) := by
  intro t d s n hwf hmax hs hd
  obtain ⟨⟨hlen, _⟩, hty⟩ := hwf
  have hsz : t.size = t.vec.length := hlen
  unfold LinearTable.copyWithin
  rw [if_neg (by simp only [rangeOutOfBounds_true_iff]; omega),
      if_neg (by simp only [rangeOutOfBounds_true_iff]; omega)]
  by_cases hds : d ≤ s
  · rw [if_pos hds]
    obtain ⟨t', hrun, hmeta, _, hcopy, hunt⟩ :=
      copySameFwd_spec n t s d hty hds (by omega)
    refine ⟨t', hrun, ?_, hcopy, hunt⟩
    show t'.td.current_elements = t.td.current_elements
    rw [hmeta.2.2.2.2.2]
  · rw [if_neg hds]
    obtain ⟨t', hrun, hmeta, _, hcopy, hunt⟩ :=
      copySameBwd_spec n t s d hty (by omega) (by omega) (by omega)
    refine ⟨t', hrun, ?_, hcopy, hunt⟩
    show t'.td.current_elements = t.td.current_elements
    rw [hmeta.2.2.2.2.2]

/-- Witness for C3 at the specification's marker scenario:
`copy(self, dst=1, src=0, len=4)` on the 6-marker table moves slots
0..3 into 1..4 and leaves slots 0 and 5 untouched. -/
theorem copy_overlap_block_move_witness :
    ∃ t', sampleTable6.copyWithin 1 0 4 = .ok t' ∧
      t'.size = sampleTable6.size ∧
      (∀ i, i < 4 → t'.vec[1 + i]? = sampleTable6.vec[0 + i]?) ∧
      (∀ j, j < 1 ∨ 1 + 4 ≤ j → t'.vec[j]? = sampleTable6.vec[j]?) :=
  copy_overlap_block_move sampleTable6 1 0 4
    (by decide) (by decide) (by decide) (by decide)

/-- C4: `grow(delta)` returns the "cannot grow" result `None` — and,
the model being state-passing, no mutated table — exactly when
`size() + delta` overflows the `u32` size type or exceeds the configured
maximum. -/
theorem grow_cannot_grow_iff :
    ∀ (t : LinearTable) (delta newAddr : Nat),
      t.grow delta newAddr = none ↔
        (U32_MAX < t.size + delta ∨
          ∃ max, t.maximum = some max ∧ max < t.size + delta) := by
  intro t delta addr
  rcases le_or_lt (t.size + delta) U32_MAX with hle | hlt
  · have hca : u32CheckedAdd t.size delta = some (t.size + delta) := by
      unfold u32CheckedAdd; simp [hle]
    simp only [LinearTable.grow, hca]
    split
    case isTrue hmaxc =>
      cases hm : t.maximum with
      | none => rw [hm] at hmaxc; exact absurd hmaxc (by simp [exceedsMaximum])
      | some m =>
        rw [hm] at hmaxc
        simp only [exceedsMaximum, decide_eq_true_eq] at hmaxc
        exact iff_of_true (by trivial) (Or.inr ⟨m, rfl, hmaxc⟩)
    case isFalse hmaxc =>
      refine iff_of_false (by simp) ?_
      rintro (h | ⟨m, hm, h2⟩)
      · omega
      · rw [hm] at hmaxc
        simp only [exceedsMaximum, decide_eq_true_eq] at hmaxc
        omega
  · have hca : u32CheckedAdd t.size delta = none := by
      unfold u32CheckedAdd; simp; omega
    simp only [LinearTable.grow, hca]
    exact iff_of_true (by trivial) (Or.inl hlt)

/-- Witness for C4: on the sample table (size 2, maximum 4), `grow(3)`
would reach 5 > 4, so it returns `None`. -/
theorem grow_cannot_grow_iff_witness : sampleTable.grow 3 200 = none :=
  (grow_cannot_grow_iff sampleTable 3 200).mpr
    (Or.inr ⟨4, rfl, by decide⟩)

/-- C5: whenever `grow(delta)` succeeds on a well-formed table it returns
the pre-growth size, the new size is the old size plus `delta`, every new
slot reads back as the kind's null reference, and the old slots are
unchanged. -/
theorem grow_success_spec :
    ∀ (t : LinearTable) (delta newAddr prev : Nat) (t' : LinearTable),
      WellFormed t → t.grow delta newAddr = some (prev, t') →
      prev = t.size ∧ t'.size = t.size + delta ∧
      (∀ i, t.size ≤ i → i < t.size + delta →
        t'.get i = .ok (kindNull t.table.ty)) ∧
      (∀ i, i < t.size → t'.vec[i]? = t.vec[i]?) := by
  intro t delta addr prev t' hwf h
  obtain ⟨⟨hlen, _⟩, hty⟩ := hwf
  have hsz : t.size = t.vec.length := hlen
  obtain ⟨hprev, _, _, ht'⟩ := grow_some_elim h
  have hvec2 : t'.vec =
      vecResize t.vec (t.size + delta) TableElement.default := by
    rw [ht']
  have htab2 : t'.table = t.table := by rw [ht']
  have hty2 : tyValid t'.table.ty := by rw [htab2]; exact hty
  refine ⟨hprev, by rw [ht']; rfl, ?_, ?_⟩
  · intro i hi1 hi2
    have hres : t'.vec[i]? = some TableElement.default := by
      rw [hvec2]
      exact vecResize_get_pad _ (by omega) (by omega)
    rw [get_eq_readElem hty2 hres, htab2, readElem_default hty]
  · intro i hi
    rw [hvec2]
    exact vecResize_get_lt _ (by omega) (by omega)

/-- Witness for C5 at the specification's scenario: `grow(1)` on the
sample table returns 2 and the table now has size 3. -/
theorem grow_success_spec_witness :
    2 = sampleTable.size ∧ sampleGrown.size = sampleTable.size + 1 :=
  ⟨(grow_success_spec sampleTable 1 200 2 sampleGrown
      (by decide) (by decide)).1,
   (grow_success_spec sampleTable 1 200 2 sampleGrown
      (by decide) (by decide)).2.1⟩

/-- C8: both constructors fail exactly when the element kind is
unsupported, `maximum < minimum`, or `minimum` does not fit the native
size type; on success the fresh table has `size() == minimum` and every
slot reads back as the kind's null reference. -/
theorem constructors_spec :
    ∀ (table : TableType) (style : TableStyle) (loc addr : Nat),
      ((∃ e, LinearTable.new table style addr = .error e) ↔
        (¬ tyValid table.ty ∨
          (∃ max, table.maximum = some max ∧ max < table.minimum) ∨
          USIZE_MAX < table.minimum)) ∧
      ((∃ e, LinearTable.from_definition table style loc addr =
          .error e) ↔
        (¬ tyValid table.ty ∨
          (∃ max, table.maximum = some max ∧ max < table.minimum) ∨
          USIZE_MAX < table.minimum)) ∧
      (∀ t, LinearTable.new table style addr = .ok t →
        t.size = table.minimum ∧
        ∀ i, i < table.minimum → t.get i = .ok (kindNull table.ty)) ∧
      (∀ t, LinearTable.from_definition table style loc addr = .ok t →
        t.size = table.minimum ∧
        ∀ i, i < table.minimum → t.get i = .ok (kindNull table.ty)) := by
  intro table style loc addr
  refine ⟨new_inner_error_iff table style none addr,
          new_inner_error_iff table style (some loc) addr, ?_, ?_⟩
  all_goals
    intro t h
    obtain ⟨htyV, hvec, _, _, htab, _, htd⟩ := new_inner_ok_elim h
    constructor
    · show t.td.current_elements = _
      rw [htd]
    · intro i hi
      have hre : t.vec[i]? = some TableElement.default := by
        rw [hvec]
        exact List.getElem?_replicate_of_lt hi
      have htyV2 : tyValid t.table.ty := by rw [htab]; exact htyV
      rw [get_eq_readElem htyV2 hre, htab, readElem_default htyV]

/-- Witness for C8: the description {funcref, minimum 2, maximum 4}
yields `sampleTable`, of size 2 with both slots the null funcref. -/
theorem constructors_spec_witness :
    sampleTable.size = 2 ∧
    ∀ i, i < 2 → sampleTable.get i = .ok (kindNull ValType.funcRef) :=
  (constructors_spec ⟨.funcRef, 2, some 4⟩ .callerChecksSignature 0
    100).2.2.1 sampleTable (by decide)

/-- C9: construction establishes the layout invariant — the raw layout's
`current_elements` equals the storage's length and its `base` the
storage's address — and `set`, `grow`, and both forms of `copy` preserve
it; `size` reads its result from the raw layout and always succeeds. -/
theorem layout_always_consistent :
    (∀ (table : TableType) (style : TableStyle) (vloc : Option Nat)
        (addr : Nat) (t : LinearTable),
      LinearTable.new_inner table style vloc addr = .ok t →
        LayoutInv t) ∧
    (∀ (t : LinearTable) (i : Nat) (r : TableReference)
        (t' : LinearTable),
      LayoutInv t → t.set i r = .ok t' → LayoutInv t') ∧
    (∀ (t : LinearTable) (delta addr prev : Nat) (t' : LinearTable),
      t.grow delta addr = some (prev, t') → LayoutInv t') ∧
    (∀ (t : LinearTable) (d s n : Nat) (t' : LinearTable),
      LayoutInv t → t.copyWithin d s n = .ok t' → LayoutInv t') ∧
    (∀ (t src : LinearTable) (d s n : Nat) (t' : LinearTable),
      LayoutInv t → t.copyFrom src d s n = .ok t' → LayoutInv t') ∧
    (∀ t : LinearTable, t.size = t.td.current_elements ∧
      t.vmtable = t.td) := by
  refine ⟨?_, ?_, ?_, ?_, ?_, fun t => ⟨rfl, rfl⟩⟩
  · intro table style vloc addr t h
    obtain ⟨_, hvec, haddr, _, _, _, htd⟩ := new_inner_ok_elim h
    constructor
    · rw [htd, hvec]
      simp [List.length_replicate]
    · rw [htd, haddr]
  · intro t i r t' hinv hset
    obtain ⟨_, ht'⟩ := set_ok_elim hset
    subst ht'
    exact ⟨by rw [List.length_set]; exact hinv.1, hinv.2⟩
  · intro t delta addr prev t' h
    obtain ⟨_, _, _, ht'⟩ := grow_some_elim h
    subst ht'
    exact ⟨(vecResize_length _ _ _).symm, rfl⟩
  · intro t d s n t' hinv hcp
    obtain ⟨hlen2, hmeta⟩ := copyWithin_meta hcp
    exact ⟨by rw [hmeta.2.2.2.2.2, hlen2]; exact hinv.1,
      by rw [hmeta.2.2.2.2.2, hmeta.1]; exact hinv.2⟩
  · intro t src d s n t' hinv hcp
    obtain ⟨hlen2, hmeta⟩ := copyFrom_meta hcp
    exact ⟨by rw [hmeta.2.2.2.2.2, hlen2]; exact hinv.1,
      by rw [hmeta.2.2.2.2.2, hmeta.1]; exact hinv.2⟩

/-- Witness for C9: the freshly constructed sample table satisfies the
layout invariant. -/
theorem layout_always_consistent_witness : LayoutInv sampleTable :=
  layout_always_consistent.1 ⟨.funcRef, 2, some 4⟩
    .callerChecksSignature none 100 sampleTable (by decide)

/-- C10: every constructor-built table stores one of the two supported
reference kinds; no operation ever changes the stored description; on a
table of supported kind `get` never reaches its fallback panic branch,
and every successful `get` returns a reference whose tag equals the
table's element kind. -/
theorem element_kind_stable :
    (∀ (table : TableType) (style : TableStyle) (vloc : Option Nat)
        (addr : Nat) (t : LinearTable),
      LinearTable.new_inner table style vloc addr = .ok t →
        tyValid t.table.ty) ∧
    (∀ (t : LinearTable) (i : Nat) (r : TableReference)
        (t' : LinearTable),
      t.set i r = .ok t' → t'.table = t.table) ∧
    (∀ (t : LinearTable) (delta addr prev : Nat) (t' : LinearTable),
      t.grow delta addr = some (prev, t') → t'.table = t.table) ∧
    (∀ (t : LinearTable) (d s n : Nat) (t' : LinearTable),
      t.copyWithin d s n = .ok t' → t'.table = t.table) ∧
    (∀ (t src : LinearTable) (d s n : Nat) (t' : LinearTable),
      t.copyFrom src d s n = .ok t' → t'.table = t.table) ∧
    (∀ (t : LinearTable) (i : Nat), tyValid t.table.ty →
      (∀ msg, t.get i ≠ .error (.panicTodo msg)) ∧
      (∀ r, t.get i = .ok r → tagMatches t.table.ty r = true)) := by
  refine ⟨?_, ?_, ?_, ?_, ?_, ?_⟩
  · intro table style vloc addr t h
    obtain ⟨hty, _, _, _, htab, _, _⟩ := new_inner_ok_elim h
    rw [htab]
    exact hty
  · intro t i r t' h
    obtain ⟨_, ht'⟩ := set_ok_elim h
    subst ht'
    rfl
  · intro t delta addr prev t' h
    obtain ⟨_, _, _, ht'⟩ := grow_some_elim h
    subst ht'
    rfl
  · intro t d s n t' h
    exact (copyWithin_meta h).2.2.2.1
  · intro t src d s n t' h
    exact (copyFrom_meta h).2.2.2.1
  · intro t i hty
    constructor
    · intro msg
      cases he : t.vec[i]? with
      | none => rw [get_oob he]; simp
      | some e => rw [get_eq_readElem hty he]; simp
    · intro r hr
      cases he : t.vec[i]? with
      | none =>
        rw [get_oob he] at hr
        exact Except.noConfusion hr
      | some e =>
        rw [get_eq_readElem hty he] at hr
        injection hr with hr2
        rw [← hr2]
        exact tagMatches_readElem hty e

/-- Witness for C10: the sample table's element kind is one of the two
supported reference kinds. -/
theorem element_kind_stable_witness : tyValid sampleTable.table.ty :=
  element_kind_stable.1 ⟨.funcRef, 2, some 4⟩ .callerChecksSignature
    none 100 sampleTable (by decide)

end WasmerTable
